import Mathlib

/-!
Verification of the customer CRUD service in `src/index.js`.

The service keeps a single collection of customer records in a JSON file.
Each HTTP request loads the whole file, possibly mutates the in-memory
array, writes it back in full, and answers with a status code and a JSON
body.  We embed the per-request behaviour shallowly: the backing file is a
`List Cliente` threaded through each handler, and the three route handlers
become pure functions from the loaded collection (plus request data) to a
`HandlerResult` holding the HTTP status, the response body, the resulting
on-disk collection, and whether `guardarClientes` (a file write) was
performed.  I/O failures of `readFile`/`writeFile` are outside the model;
all claims below concern the success path of load and save.

JavaScript numeric quirks that matter to the routes are modelled with
`Option Int`: `none` stands for `undefined`/`NaN` (an absent `id` field,
or `parseInt` returning `NaN`), and the strict-equality test `c.id === id`
is false whenever either side is `NaN`/`undefined`, which `idMatches`
reproduces.
-/

/-- A customer record: the JSON object stored in the collection.  `id` is
`none` when the field is absent (or `NaN`), `nombre` is `none` when the
field is absent, and `extra` carries any further fields opaquely, as the
spec allows consumers to attach arbitrary additional fields. -/
structure Cliente where
  id : Option Int
  nombre : Option String
  extra : List (String × String)
deriving DecidableEq

/-- A JSON response body as produced by the three handlers: the whole
collection, a single customer, an `\x7berror: msg\x7d` object, or a
`\x7bmensaje: msg\x7d` object. -/
inductive Body where
  | clientesArr (cs : List Cliente)
  | cliente (c : Cliente)
  | errorObj (msg : String)
  | mensajeObj (msg : String)
deriving DecidableEq

/-- Outcome of one request on the success path of load/save: HTTP status,
response body, the on-disk collection after the request (unchanged when no
write happened), and whether `guardarClientes` was called. -/
structure HandlerResult where
  status : Nat
  body : Body
  file : List Cliente
  saved : Bool
deriving DecidableEq

/-- The truthiness test `!nuevoCliente.nombre` from the POST handler:
the check fails when the `nombre` field is absent or the empty string
(the falsy string). -/
def truthyNombre (c : Cliente) : Bool :=
  match c.nombre with
  | none => false
  | some s => !(s == "")

/-- `clientes.length > 0 ? clientes.at(-1).id + 1 : 1` — the id the POST
handler assigns.  `at(-1)` is the last element; if that element has no
`id` field the JavaScript sum is `NaN`, which `Option.map` propagates as
`none`. -/
def nextId (clientes : List Cliente) : Option Int :=
  if clientes.length > 0 then
    (clientes.getLast?.bind Cliente.id).map (fun n => n + 1)
  else some 1

/-- The ids present in a collection (skipping records whose `id` field is
absent), in collection order. -/
def clienteIds (cs : List Cliente) : List Int :=
  cs.filterMap Cliente.id

/-- `POST /clientes`: validate `nombre`, assign `nextId`, push, save,
respond 201 with the new record; on missing `nombre` respond 400 without
touching the collection. -/
def postClientes (file : List Cliente) (reqBody : Cliente) : HandlerResult :=
  let clientes := file
  let nuevoCliente := reqBody
  if !truthyNombre nuevoCliente then
    { status := 400, body := Body.errorObj "Falta el campo \x27nombre\x27",
      file := clientes, saved := false }
  else
    let conId : Cliente := { nuevoCliente with id := nextId clientes }
    { status := 201, body := Body.cliente conId,
      file := clientes ++ [conId], saved := true }

/-- `GET /clientes`: load and answer the collection verbatim with 200. -/
def getClientes (file : List Cliente) : HandlerResult :=
  { status := 200, body := Body.clientesArr file, file := file, saved := false }

/-- `c.id === id` where `id` is the `parseInt` result: `NaN` (and an
absent `id` field) compares unequal to everything, itself included. -/
def idMatches (pid : Option Int) (c : Cliente) : Bool :=
  match pid, c.id with
  | some n, some m => n == m
  | _, _ => false

/-- `findIndex` followed by `splice(index, 1)`: remove the first element
satisfying `p`, returning it together with the remaining list, or `none`
when no element matches. -/
def removeFirst (p : Cliente → Bool) : List Cliente → Option (Cliente × List Cliente)
  | [] => none
  | c :: rest =>
    if p c then some (c, rest)
    else (removeFirst p rest).map (fun pr => (pr.1, c :: pr.2))

/-- JavaScript `parseInt(s)` (radix argument omitted): skip leading
whitespace, read an optional sign, detect a `0x`/`0X` prefix (hexadecimal)
and otherwise use base 10, then consume the longest prefix of digits of
that base; with no digit consumed the result is `NaN`, modelled `none`.
Values are modelled as exact integers (float rounding of huge literals is
out of scope). -/
def parseDigits (dv : Char → Option Nat) (radix : Nat) :
    List Char → Nat → Nat → Nat × Nat
  | [], acc, count => (acc, count)
  | c :: rest, acc, count =>
    match dv c with
    | some d => parseDigits dv radix rest (acc * radix + d) (count + 1)
    | none => (acc, count)

/-- Value of a decimal digit character, if it is one. -/
def decDigitVal (c : Char) : Option Nat :=
  if 48 ≤ c.toNat ∧ c.toNat ≤ 57 then some (c.toNat - 48) else none

/-- Value of a hexadecimal digit character, if it is one. -/
def hexDigitVal (c : Char) : Option Nat :=
  if 48 ≤ c.toNat ∧ c.toNat ≤ 57 then some (c.toNat - 48)
  else if 97 ≤ c.toNat ∧ c.toNat ≤ 102 then some (c.toNat - 87)
  else if 65 ≤ c.toNat ∧ c.toNat ≤ 70 then some (c.toNat - 55)
  else none

def parseIntJS (s : String) : Option Int :=
  let cs := s.data.dropWhile Char.isWhitespace
  let signAndRest : Int × List Char :=
    match cs with
    | '-' :: rest => (-1, rest)
    | '+' :: rest => (1, rest)
    | _ => (1, cs)
  let radixAndRest : (Char → Option Nat) × Nat × List Char :=
    match signAndRest.2 with
    | '0' :: 'x' :: rest => (hexDigitVal, 16, rest)
    | '0' :: 'X' :: rest => (hexDigitVal, 16, rest)
    | rest => (decDigitVal, 10, rest)
  let parsed := parseDigits radixAndRest.1 radixAndRest.2.1 radixAndRest.2.2 0 0
  if parsed.2 = 0 then none
  else some (signAndRest.1 * (parsed.1 : Int))

/-- `DELETE /clientes/:id`: parse the path parameter, remove the first
customer whose id strictly equals the parsed value, save and answer it
with 200; otherwise answer 404 without touching the collection. -/
def deleteClientes (file : List Cliente) (idParam : String) : HandlerResult :=
  let id := parseIntJS idParam
  let clientes := file
  match removeFirst (idMatches id) clientes with
  | some pr =>
      { status := 200, body := Body.cliente pr.1, file := pr.2, saved := true }
  | none =>
      { status := 404, body := Body.mensajeObj "Cliente no encontrado",
        file := clientes, saved := false }

/-- A mutating request: a create with a JSON body, or a delete with a raw
path parameter. -/
inductive Req where
  | create (reqBody : Cliente)
  | remove (idParam : String)
deriving DecidableEq

/-- The on-disk collection after the server handles one request (success
path of load and save). -/
def serverStep (file : List Cliente) : Req → List Cliente
  | Req.create b => (postClientes file b).file
  | Req.remove s => (deleteClientes file s).file

/-- The on-disk collection after the server handles a whole sequence of
requests one at a time. -/
def serverRun (reqs : List Req) (init : List Cliente) : List Cliente :=
  reqs.foldl serverStep init

/-- Spec-side pure mutator (written from the spec's words in §2/§8, to be
compared with the server): a valid create appends the record with the next
sequential identifier, an invalid create changes nothing; a delete removes
the first record with the matching identifier, or changes nothing. -/
def specApplyReq (cs : List Cliente) : Req → List Cliente
  | Req.create b =>
      if truthyNombre b then cs ++ [{ b with id := nextId cs }] else cs
  | Req.remove s =>
      match removeFirst (idMatches (parseIntJS s)) cs with
      | some pr => pr.2
      | none => cs

/-- Spec-side replay of a request sequence as pure in-memory mutations. -/
def specReplay (reqs : List Req) (init : List Cliente) : List Cliente :=
  reqs.foldl specApplyReq init

/-- The id of the customer a handler answered with, when the body is a
single customer. -/
def newClienteId (r : HandlerResult) : Option Int :=
  match r.body with
  | Body.cliente c => c.id
  | _ => none

/-! ### Helper lemmas about `removeFirst` -/

/-- `removeFirst` misses exactly when no element matches. -/
theorem removeFirst_eq_none {p : Cliente → Bool} :
    ∀ {cs : List Cliente}, removeFirst p cs = none ↔ ∀ c ∈ cs, p c = false := by
  intro cs
  induction cs with
  | nil => simp [removeFirst]
  | cons c rest ih =>
    by_cases hc : p c
    · simp [removeFirst, hc, List.forall_mem_cons]
    · have hc' : p c = false := by simpa using hc
      simp [removeFirst, hc', ih, List.forall_mem_cons]

/-- When `removeFirst` hits, it splits the list around the first matching
element: everything before it fails `p`, the removed element satisfies
`p`, and the remainder is the list with exactly that element dropped. -/
theorem removeFirst_eq_some {p : Cliente → Bool} :
    ∀ {cs : List Cliente} {rem : Cliente} {rest : List Cliente},
      removeFirst p cs = some (rem, rest) →
      ∃ pre post, cs = pre ++ rem :: post ∧ rest = pre ++ post ∧
        (∀ c ∈ pre, p c = false) ∧ p rem = true := by
  intro cs
  induction cs with
  | nil => intro rem rest h; simp [removeFirst] at h
  | cons c tail ih =>
    intro rem rest h
    by_cases hc : p c
    · rw [removeFirst, if_pos hc] at h
      have h' := Option.some.inj h
      have h1 : c = rem := congrArg Prod.fst h'
      have h2 : tail = rest := congrArg Prod.snd h'
      subst h1; subst h2
      exact ⟨[], tail, rfl, rfl, by simp, hc⟩
    · have hc' : p c = false := by simpa using hc
      rw [removeFirst, if_neg hc] at h
      cases htail : removeFirst p tail with
      | none => rw [htail] at h; simp at h
      | some pr =>
        obtain ⟨r, l⟩ := pr
        rw [htail] at h
        simp only [Option.map_some', Option.some.injEq] at h
        have h1 : r = rem := congrArg Prod.fst h
        have h2 : c :: l = rest := congrArg Prod.snd h
        subst h1
        obtain ⟨pre, post, heq, hrest, hpre, hrem⟩ := ih htail
        refine ⟨c :: pre, post, ?_, ?_, ?_, hrem⟩
        · rw [List.cons_append, ← heq]
        · rw [← h2, hrest, List.cons_append]
        · intro x hx
          rcases List.mem_cons.mp hx with rfl | hx
          · exact hc'
          · exact hpre x hx

/-! ### C9 — listing returns the on-disk array verbatim -/

/-- C9: on a successful load, `GET /clientes` answers 200 with exactly the
collection on disk — no element added, removed, reordered or modified —
and performs no write. -/
theorem getClientes_returns_disk (cs : List Cliente) :
    (getClientes cs).status = 200 ∧
    (getClientes cs).body = Body.clientesArr cs ∧
    (getClientes cs).file = cs ∧
    (getClientes cs).saved = false :=
  ⟨rfl, rfl, rfl, rfl⟩

/-! ### C4 — create without a name field -/

/-- C4: a create whose body lacks the `nombre` field answers 400 with the
error body, leaves the on-disk collection unchanged, and performs no
write. -/
theorem postClientes_missing_nombre (cs : List Cliente) (b : Cliente)
    (h : b.nombre = none) :
    (postClientes cs b).status = 400 ∧
    (postClientes cs b).body = Body.errorObj "Falta el campo \x27nombre\x27" ∧
    (postClientes cs b).file = cs ∧
    (postClientes cs b).saved = false := by
  have ht : truthyNombre b = false := by
    unfold truthyNombre; rw [h]
  simp [postClientes, ht]

/-- Witness for C4 at a concrete request. -/
theorem postClientes_missing_nombre_witness :
    (postClientes [⟨some 1, some "Ana", []⟩] ⟨some 9, none, []⟩).status = 400 ∧
    (postClientes [⟨some 1, some "Ana", []⟩] ⟨some 9, none, []⟩).body =
      Body.errorObj "Falta el campo \x27nombre\x27" ∧
    (postClientes [⟨some 1, some "Ana", []⟩] ⟨some 9, none, []⟩).file =
      [⟨some 1, some "Ana", []⟩] ∧
    (postClientes [⟨some 1, some "Ana", []⟩] ⟨some 9, none, []⟩).saved = false :=
  postClientes_missing_nombre [⟨some 1, some "Ana", []⟩] ⟨some 9, none, []⟩ rfl

/-! ### C5 — create with a valid name -/

/-- C5: a create with a non-empty name appends the new customer (carrying
the assigned id) at the end, leaves all existing records unchanged,
persists the extended collection, and answers 201 with the created
customer as body. -/
theorem postClientes_valid (cs : List Cliente) (b : Cliente)
    (h : truthyNombre b = true) :
    ∃ nuevo : Cliente,
      (postClientes cs b).status = 201 ∧
      (postClientes cs b).file = cs ++ [nuevo] ∧
      (postClientes cs b).body = Body.cliente nuevo ∧
      (postClientes cs b).saved = true ∧
      nuevo.id = nextId cs ∧ nuevo.nombre = b.nombre ∧ nuevo.extra = b.extra := by
  refine ⟨{ b with id := nextId cs }, ?_⟩
  simp [postClientes, h]

/-- Witness for C5 at a concrete request. -/
theorem postClientes_valid_witness :
    ∃ nuevo : Cliente,
      (postClientes [] ⟨none, some "Ana", []⟩).status = 201 ∧
      (postClientes [] ⟨none, some "Ana", []⟩).file = [] ++ [nuevo] ∧
      (postClientes [] ⟨none, some "Ana", []⟩).body = Body.cliente nuevo ∧
      (postClientes [] ⟨none, some "Ana", []⟩).saved = true ∧
      nuevo.id = nextId [] ∧ nuevo.nombre = (⟨none, some "Ana", []⟩ : Cliente).nombre ∧
      nuevo.extra = (⟨none, some "Ana", []⟩ : Cliente).extra :=
  postClientes_valid [] ⟨none, some "Ana", []⟩ rfl

/-! ### C6 — delete of an existing identifier -/

/-- C6: when the parsed identifier matches at least one customer, the
handler removes exactly the first matching record, persists the reduced
collection, and answers 200 with the removed record as body. -/
theorem deleteClientes_found (cs : List Cliente) (s : String)
    (h : ∃ c ∈ cs, idMatches (parseIntJS s) c = true) :
    ∃ pre rem post,
      cs = pre ++ rem :: post ∧
      (∀ c ∈ pre, idMatches (parseIntJS s) c = false) ∧
      idMatches (parseIntJS s) rem = true ∧
      (deleteClientes cs s).status = 200 ∧
      (deleteClientes cs s).body = Body.cliente rem ∧
      (deleteClientes cs s).file = pre ++ post ∧
      (deleteClientes cs s).saved = true := by
  obtain ⟨c0, hc0, hm⟩ := h
  cases hrf : removeFirst (idMatches (parseIntJS s)) cs with
  | none =>
      exact absurd (removeFirst_eq_none.mp hrf c0 hc0) (by simp [hm])
  | some pr =>
      obtain ⟨rem, rest⟩ := pr
      obtain ⟨pre, post, heq, hrest, hpre, hrem⟩ := removeFirst_eq_some hrf
      refine ⟨pre, rem, post, heq, hpre, hrem, ?_, ?_, ?_, ?_⟩ <;>
        simp [deleteClientes, hrf, hrest]

/-- Witness for C6: deleting id 2 from a two-element collection. -/
theorem deleteClientes_found_witness :
    ∃ pre rem post,
      ([⟨some 1, some "Ana", []⟩, ⟨some 2, some "Leo", []⟩] : List Cliente) =
        pre ++ rem :: post ∧
      (∀ c ∈ pre, idMatches (parseIntJS "2") c = false) ∧
      idMatches (parseIntJS "2") rem = true ∧
      (deleteClientes [⟨some 1, some "Ana", []⟩, ⟨some 2, some "Leo", []⟩] "2").status = 200 ∧
      (deleteClientes [⟨some 1, some "Ana", []⟩, ⟨some 2, some "Leo", []⟩] "2").body =
        Body.cliente rem ∧
      (deleteClientes [⟨some 1, some "Ana", []⟩, ⟨some 2, some "Leo", []⟩] "2").file =
        pre ++ post ∧
      (deleteClientes [⟨some 1, some "Ana", []⟩, ⟨some 2, some "Leo", []⟩] "2").saved = true :=
  deleteClientes_found [⟨some 1, some "Ana", []⟩, ⟨some 2, some "Leo", []⟩] "2"
    ⟨⟨some 2, some "Leo", []⟩, by simp, by decide⟩

/-! ### C7 — delete of an absent identifier -/

/-- C7: when the parsed identifier matches no customer, the handler
answers 404 with the message body, leaves the collection unchanged, and
performs no write. -/
theorem deleteClientes_not_found (cs : List Cliente) (s : String)
    (h : ∀ c ∈ cs, idMatches (parseIntJS s) c = false) :
    (deleteClientes cs s).status = 404 ∧
    (deleteClientes cs s).body = Body.mensajeObj "Cliente no encontrado" ∧
    (deleteClientes cs s).file = cs ∧
    (deleteClientes cs s).saved = false := by
  have hrf : removeFirst (idMatches (parseIntJS s)) cs = none := removeFirst_eq_none.mpr h
  simp [deleteClientes, hrf]

/-- Witness for C7: deleting id 5 from a collection holding only id 1. -/
theorem deleteClientes_not_found_witness :
    (deleteClientes [⟨some 1, some "Ana", []⟩] "5").status = 404 ∧
    (deleteClientes [⟨some 1, some "Ana", []⟩] "5").body =
      Body.mensajeObj "Cliente no encontrado" ∧
    (deleteClientes [⟨some 1, some "Ana", []⟩] "5").file = [⟨some 1, some "Ana", []⟩] ∧
    (deleteClientes [⟨some 1, some "Ana", []⟩] "5").saved = false :=
  deleteClientes_not_found [⟨some 1, some "Ana", []⟩] "5" (by decide)

/-! ### C8 — delete with a non-numeric path parameter -/

/-- C8: when integer parsing of the path parameter yields NaN, the
comparison matches no customer whatsoever, and the handler answers 404
leaving every collection unchanged. -/
theorem deleteClientes_non_numeric (cs : List Cliente) (s : String)
    (h : parseIntJS s = none) :
    (∀ c ∈ cs, idMatches (parseIntJS s) c = false) ∧
    (deleteClientes cs s).status = 404 ∧
    (deleteClientes cs s).body = Body.mensajeObj "Cliente no encontrado" ∧
    (deleteClientes cs s).file = cs ∧
    (deleteClientes cs s).saved = false := by
  have hmatch : ∀ c ∈ cs, idMatches (parseIntJS s) c = false := by
    intro c _
    rw [h]
    cases c with
    | mk cid cn cx => cases cid <;> rfl
  have hrf : removeFirst (idMatches (parseIntJS s)) cs = none :=
    removeFirst_eq_none.mpr hmatch
  exact ⟨hmatch, by simp [deleteClientes, hrf]⟩

/-- Witness for C8: the parameter `abc` parses to NaN and deletes
nothing. -/
theorem deleteClientes_non_numeric_witness :
    (∀ c ∈ ([⟨some 1, some "Ana", []⟩] : List Cliente),
        idMatches (parseIntJS "abc") c = false) ∧
    (deleteClientes [⟨some 1, some "Ana", []⟩] "abc").status = 404 ∧
    (deleteClientes [⟨some 1, some "Ana", []⟩] "abc").body =
      Body.mensajeObj "Cliente no encontrado" ∧
    (deleteClientes [⟨some 1, some "Ana", []⟩] "abc").file = [⟨some 1, some "Ana", []⟩] ∧
    (deleteClientes [⟨some 1, some "Ana", []⟩] "abc").saved = false :=
  deleteClientes_non_numeric [⟨some 1, some "Ana", []⟩] "abc" (by decide)

/-! ### C3 — the file refines the pure in-memory replay -/

/-- One server request moves the on-disk state exactly as the spec-side
pure mutator does. -/
theorem serverStep_eq_specApplyReq (cs : List Cliente) (r : Req) :
    serverStep cs r = specApplyReq cs r := by
  cases r with
  | create b =>
      by_cases hb : truthyNombre b
      · simp [serverStep, specApplyReq, postClientes, hb]
      · have hb' : truthyNombre b = false := by simpa using hb
        simp [serverStep, specApplyReq, postClientes, hb']
  | remove s =>
      cases hrf : removeFirst (idMatches (parseIntJS s)) cs with
      | none => simp [serverStep, specApplyReq, deleteClientes, hrf]
      | some pr => simp [serverStep, specApplyReq, deleteClientes, hrf]

/-- C3: after any finite sequence of create/delete requests handled one
at a time, the collection stored in the file equals the result of
replaying the same sequence of pure append/remove mutations in memory
against the initial collection. -/
theorem serverRun_eq_specReplay (reqs : List Req) (init : List Cliente) :
    serverRun reqs init = specReplay reqs init := by
  induction reqs generalizing init with
  | nil => rfl
  | cons r rest ih =>
      simp only [serverRun, specReplay, List.foldl_cons] at *
      rw [serverStep_eq_specApplyReq init r]
      exact ih (specApplyReq init r)

/-! ### Helper lemmas about ids of a collection ending in a known record -/

/-- Ids of a collection ending in a record with id `m`. -/
theorem ids_concat (L : List Cliente) (c : Cliente) (m : Int) (hm : c.id = some m) :
    clienteIds (L ++ [c]) = clienteIds L ++ [m] := by
  rw [clienteIds, List.filterMap_append, clienteIds]
  simp [List.filterMap, hm]

/-- With weakly increasing ids, the last record's id bounds every id. -/
theorem le_last_of_pairwise_le (L : List Cliente) (c : Cliente) (m : Int)
    (hm : c.id = some m)
    (hinc : (clienteIds (L ++ [c])).Pairwise (fun a b => a ≤ b)) :
    ∀ x ∈ clienteIds (L ++ [c]), x ≤ m := by
  rw [ids_concat L c m hm] at hinc ⊢
  intro x hx
  rcases List.mem_append.mp hx with hx | hx
  · exact (List.pairwise_append.mp hinc).2.2 x hx m (by simp)
  · have : x = m := by simpa using hx
    exact this.le

/-- The id the POST handler assigns on a collection ending in a record
with id `m` is `m + 1`. -/
theorem nextId_concat (L : List Cliente) (c : Cliente) (m : Int) (hm : c.id = some m) :
    nextId (L ++ [c]) = some (m + 1) := by
  simp only [nextId]
  rw [if_pos (by simp), List.getLast?_concat]
  simp [hm]

/-! ### C1 — the assigned identifier versus max + 1 -/

/-- Counterexample to C1 as stated: on the collection with ids `[5, 2]`
(maximum 5) a valid create assigns id `3` — the last element's id plus
one — not `max + 1 = 6`. -/
theorem postClientes_not_max_plus_one :
    ((5 : Int) ∈ clienteIds [⟨some 5, some "Ana", []⟩, ⟨some 2, some "Leo", []⟩] ∧
      ∀ x ∈ clienteIds [⟨some 5, some "Ana", []⟩, ⟨some 2, some "Leo", []⟩], x ≤ 5) ∧
    newClienteId (postClientes [⟨some 5, some "Ana", []⟩, ⟨some 2, some "Leo", []⟩]
      ⟨none, some "Bob", []⟩) = some 3 ∧
    ¬ newClienteId (postClientes [⟨some 5, some "Ana", []⟩, ⟨some 2, some "Leo", []⟩]
      ⟨none, some "Bob", []⟩) = some (5 + 1) := by
  decide

/-- C1 amended: the handler assigns (last element's id) + 1, which equals
max(existing ids) + 1 whenever the ids are weakly increasing along the
collection (true of every collection the service itself builds), and 1 on
the empty collection. -/
theorem postClientes_max_plus_one_of_sorted (cs : List Cliente) (b : Cliente)
    (hval : truthyNombre b = true)
    (hall : ∀ c ∈ cs, (Cliente.id c).isSome = true)
    (hinc : (clienteIds cs).Pairwise (fun a b => a ≤ b)) :
    (cs = [] → newClienteId (postClientes cs b) = some 1) ∧
    (cs ≠ [] → ∃ M, M ∈ clienteIds cs ∧ (∀ x ∈ clienteIds cs, x ≤ M) ∧
      newClienteId (postClientes cs b) = some (M + 1)) := by
  constructor
  · intro h
    subst h
    simp [postClientes, hval, newClienteId, nextId]
  · intro hne
    rcases List.eq_nil_or_concat cs with h | ⟨L, c, hLc⟩
    · exact absurd h hne
    · have hLc' : cs = L ++ [c] := by simpa [List.concat_eq_append] using hLc
      have hcmem : c ∈ cs := by rw [hLc']; simp
      obtain ⟨m, hm⟩ := Option.isSome_iff_exists.mp (hall c hcmem)
      have hnext : nextId cs = some (m + 1) := by
        rw [hLc']; exact nextId_concat L c m hm
      refine ⟨m, ?_, ?_, ?_⟩
      · rw [hLc', ids_concat L c m hm]; simp
      · intro x hx
        rw [hLc'] at hx hinc
        exact le_last_of_pairwise_le L c m hm hinc x hx
      · simp [postClientes, hval, newClienteId, hnext]

/-- Witness for the amended C1 on the sorted collection with ids
`[1, 4]`: the assigned id is `4 + 1`. -/
theorem postClientes_max_plus_one_of_sorted_witness :
    ∃ M, M ∈ clienteIds [⟨some 1, some "Ana", []⟩, ⟨some 4, some "Leo", []⟩] ∧
      (∀ x ∈ clienteIds [⟨some 1, some "Ana", []⟩, ⟨some 4, some "Leo", []⟩], x ≤ M) ∧
      newClienteId (postClientes [⟨some 1, some "Ana", []⟩, ⟨some 4, some "Leo", []⟩]
        ⟨none, some "Bob", []⟩) = some (M + 1) :=
  (postClientes_max_plus_one_of_sorted
      [⟨some 1, some "Ana", []⟩, ⟨some 4, some "Leo", []⟩] ⟨none, some "Bob", []⟩
      (by decide) (by decide) (by decide)).2 (by decide)

/-! ### C2 — uniqueness of identifiers as an invariant -/

/-- Counterexample to C2 as stated: the collection with ids `[3, 2]` has
pairwise-distinct ids, yet a single valid create assigns `2 + 1 = 3` and
produces ids `[3, 2, 3]`, which are not pairwise distinct. -/
theorem create_breaks_distinctness :
    (clienteIds [⟨some 3, some "Ana", []⟩, ⟨some 2, some "Leo", []⟩]).Pairwise
      (fun a b => a ≠ b) ∧
    ¬ (clienteIds (serverStep [⟨some 3, some "Ana", []⟩, ⟨some 2, some "Leo", []⟩]
        (Req.create ⟨none, some "Bob", []⟩))).Pairwise (fun a b => a ≠ b) := by
  decide

/-- C2 amended: the invariant preserved by every single create or delete
is the stronger one the reachable states enjoy — every record has an id
and the ids strictly increase along the collection; it implies pairwise
distinctness after the operation. -/
theorem step_preserves_distinct_ids (cs : List Cliente) (r : Req)
    (hall : ∀ c ∈ cs, (Cliente.id c).isSome = true)
    (hinc : (clienteIds cs).Pairwise (fun a b => a < b)) :
    (∀ c ∈ serverStep cs r, (Cliente.id c).isSome = true) ∧
    (clienteIds (serverStep cs r)).Pairwise (fun a b => a < b) ∧
    (clienteIds (serverStep cs r)).Pairwise (fun a b => a ≠ b) := by
  have main : (∀ c ∈ serverStep cs r, (Cliente.id c).isSome = true) ∧
      (clienteIds (serverStep cs r)).Pairwise (fun a b => a < b) := by
    cases r with
    | create b =>
      by_cases hb : truthyNombre b
      · have hstate : serverStep cs (Req.create b) =
            cs ++ [{ b with id := nextId cs }] := by
          simp [serverStep, postClientes, hb]
        rcases List.eq_nil_or_concat cs with hnil | ⟨L, c, hLc⟩
        · subst hnil
          rw [hstate]
          constructor
          · intro x hx
            simp at hx
            subst hx
            simp [nextId]
          · simp [clienteIds, List.filterMap, nextId]
        · have hLc' : cs = L ++ [c] := by simpa [List.concat_eq_append] using hLc
          obtain ⟨m, hm⟩ := Option.isSome_iff_exists.mp (hall c (by rw [hLc']; simp))
          have hnext : nextId cs = some (m + 1) := by
            rw [hLc']; exact nextId_concat L c m hm
          have hids2 : clienteIds (cs ++ [{ b with id := nextId cs }]) =
              clienteIds cs ++ [m + 1] :=
            ids_concat cs _ (m + 1) (by simp [hnext])
          constructor
          · intro x hx
            rw [hstate] at hx
            rcases List.mem_append.mp hx with hx | hx
            · exact hall x hx
            · have : x = { b with id := nextId cs } := by simpa using hx
              subst this
              simp [hnext]
          · rw [hstate, hids2, List.pairwise_append]
            refine ⟨hinc, by simp, ?_⟩
            intro a ha y hy
            have hy' : y = m + 1 := by simpa using hy
            subst hy'
            have hlele : (clienteIds (L ++ [c])).Pairwise (fun a b => a ≤ b) := by
              rw [← hLc']
              exact hinc.imp (fun h => le_of_lt h)
            have hle : a ≤ m :=
              le_last_of_pairwise_le L c m hm hlele a (by rw [← hLc']; exact ha)
            omega
      · have hb' : truthyNombre b = false := by simpa using hb
        have hstate : serverStep cs (Req.create b) = cs := by
          simp [serverStep, postClientes, hb']
        rw [hstate]
        exact ⟨hall, hinc⟩
    | remove s =>
      cases hrf : removeFirst (idMatches (parseIntJS s)) cs with
      | none =>
        have hstate : serverStep cs (Req.remove s) = cs := by
          simp [serverStep, deleteClientes, hrf]
        rw [hstate]
        exact ⟨hall, hinc⟩
      | some pr =>
        obtain ⟨rem, rest⟩ := pr
        have hstate : serverStep cs (Req.remove s) = rest := by
          simp [serverStep, deleteClientes, hrf]
        obtain ⟨pre, post, heq, hrest, hpre, hrem⟩ := removeFirst_eq_some hrf
        have hsub : List.Sublist rest cs := by
          rw [hrest, heq]
          exact List.Sublist.append_left (List.sublist_cons_self rem post) pre
        rw [hstate]
        constructor
        · intro x hx
          exact hall x (hsub.subset hx)
        · exact hinc.sublist (hsub.filterMap Cliente.id)
  exact ⟨main.1, main.2, main.2.imp (fun h => ne_of_lt h)⟩

/-- Witness for the amended C2: creating on the strictly increasing
collection with ids `[1]` keeps the ids strictly increasing and pairwise
distinct. -/
theorem step_preserves_distinct_ids_witness :
    (∀ c ∈ serverStep [⟨some 1, some "Ana", []⟩] (Req.create ⟨none, some "Bob", []⟩),
        (Cliente.id c).isSome = true) ∧
    (clienteIds (serverStep [⟨some 1, some "Ana", []⟩]
        (Req.create ⟨none, some "Bob", []⟩))).Pairwise (fun a b => a < b) ∧
    (clienteIds (serverStep [⟨some 1, some "Ana", []⟩]
        (Req.create ⟨none, some "Bob", []⟩))).Pairwise (fun a b => a ≠ b) :=
  step_preserves_distinct_ids [⟨some 1, some "Ana", []⟩]
    (Req.create ⟨none, some "Bob", []⟩) (by decide) (by decide)

/-! ### C10 — a client-supplied id is always overwritten -/

/-- C10: the outcome of a create is identical for request bodies that
differ only in the `id` field, and on the success path the stored and
returned customer carries exactly the server-computed id (`none` here
denotes the 400 outcome, whose body holds no customer). -/
theorem postClientes_ignores_client_id (cs : List Cliente) (b : Cliente) (v : Option Int) :
    postClientes cs { b with id := v } = postClientes cs b ∧
    newClienteId (postClientes cs b) = (if truthyNombre b then nextId cs else none) := by
  have ht : truthyNombre { b with id := v } = truthyNombre b := rfl
  by_cases hb : truthyNombre b
  · constructor
    · simp [postClientes, ht, hb]
    · simp [postClientes, hb, newClienteId]
  · have hb' : truthyNombre b = false := by simpa using hb
    constructor
    · simp [postClientes, ht, hb']
    · simp [postClientes, hb', newClienteId]
